import Mathlib

/-!
Verification of the bird2topo OSPF topology dashboard backend.

The development shallowly embeds the Rust sources:
  * `src/parser/block.rs`  — indentation-based block parser,
  * `src/parser/mod.rs`    — topology parser and merge,
  * `src/gather.rs`        — graph projection (edge emission),
  * `src/tokens.rs`        — fixed-capacity token pool,
  * `src/main.rs`          — update-loop hash/distribution state logic.

Strings are embedded as `List Char`; machine integers as `Nat` with explicit
`% 2^w` where wrapping matters.  Stateful Rust code is embedded as explicit
state passing; fallible code returns `Except`/`Option`.
-/

namespace Bird

/-! ## Embedding of `str::lines` and `char::is_whitespace` -/

/-- The Unicode `White_Space` code points, as used by Rust's
`char::is_whitespace`. -/
def rustWhitespaceChars : List Char :=
  ['\t', '\n', '\x0B', '\x0C', '\r', ' ', '\u0085', '\u00A0',
   '\u1680', '\u2000', '\u2001', '\u2002', '\u2003', '\u2004', '\u2005',
   '\u2006', '\u2007', '\u2008', '\u2009', '\u200A', '\u2028', '\u2029',
   '\u202F', '\u205F', '\u3000']

/-- Rust `char::is_whitespace`. -/
def rustIsWhitespace (c : Char) : Bool :=
  rustWhitespaceChars.contains c

/-- Strip one trailing `'\r'`, as Rust's `str::lines` does on segments that
were terminated by `'\n'`. -/
def stripCR (l : List Char) : List Char :=
  if l.getLast? = some '\r' then l.dropLast else l

/-- Worker for `rustLines`: `cur` is the current line accumulated in reverse. -/
def linesGo (cur : List Char) : List Char → List (List Char)
  | [] => [cur.reverse]
  | c :: rest =>
    if c = '\n' then
      stripCR cur.reverse :: (if rest.isEmpty then [] else linesGo [] rest)
    else
      linesGo (c :: cur) rest

/-- Rust `str::lines`: split at `'\n'`, strip a trailing `'\r'` of each
terminated segment, produce no trailing empty line. -/
def rustLines (s : List Char) : List (List Char) :=
  if s.isEmpty then [] else linesGo [] s

/-- `get_indent` from `block.rs`: split a line into its maximal leading
whitespace run and the remaining text. -/
def getIndent (s : List Char) : List Char × List Char :=
  (s.takeWhile rustIsWhitespace, s.dropWhile rustIsWhitespace)

/-! ## Embedding of the block parser (`block.rs`) -/

/-- `RawBlock` from `block.rs`: one open block while parsing. -/
inductive RawBlock : Type where
  | mk : List Char → List Char → List RawBlock → RawBlock
deriving Repr

def RawBlock.indent : RawBlock → List Char
  | .mk i _ _ => i

def RawBlock.head : RawBlock → List Char
  | .mk _ h _ => h

def RawBlock.subs : RawBlock → List RawBlock
  | .mk _ _ s => s

/-- `subs.push(child)` on a `RawBlock`. -/
def RawBlock.pushSub : RawBlock → RawBlock → RawBlock
  | .mk i h s, c => .mk i h (s ++ [c])

/-- `Block` from `block.rs` (head plus finished children). -/
inductive Block : Type where
  | mk : List Char → List Block → Block
deriving Repr

def Block.head : Block → List Char
  | .mk h _ => h

def Block.subs : Block → List Block
  | .mk _ s => s

mutual

/-- `RawBlock::finish`: drop the indent, keep head and children. -/
def RawBlock.finish : RawBlock → Block
  | .mk _ h subs => .mk h (finishList subs)

def finishList : List RawBlock → List Block
  | [] => []
  | b :: bs => b.finish :: finishList bs

end

/-- Parser state from `block.rs`: finished root blocks and the stack of open
blocks.  The stack's `head` is the top (most deeply nested open block). -/
structure ParserSt where
  base : List RawBlock
  stack : List RawBlock
deriving Repr

/-- `Parser::merge_prev`: pop the top open block and fold it into its parent
(or into `base` when it was the only open block). -/
def mergePrev : ParserSt → ParserSt
  | ⟨base, []⟩ => ⟨base, []⟩
  | ⟨base, [top]⟩ => ⟨base ++ [top], []⟩
  | ⟨base, top :: t2 :: rest⟩ => ⟨base, t2.pushSub top :: rest⟩

/-- `Parser::top_indent`. -/
def topIndent : ParserSt → List Char
  | ⟨_, []⟩ => []
  | ⟨_, top :: _⟩ => top.indent

/-- `Parser::pop_scope_while`, with explicit fuel so that the definition is
structurally recursive.  One pop happens per fuel unit; `popScopeWhile`
supplies fuel equal to the stack depth, which is exactly the maximal number
of iterations of the source's `while` loop. -/
def popScopeFuel (cond : RawBlock → Bool) : Nat → ParserSt → ParserSt
  | 0, st => st
  | _ + 1, ⟨base, []⟩ => ⟨base, []⟩
  | fuel + 1, ⟨base, top :: rest⟩ =>
    if cond top then popScopeFuel cond fuel (mergePrev ⟨base, top :: rest⟩)
    else ⟨base, top :: rest⟩

def popScopeWhile (cond : RawBlock → Bool) (st : ParserSt) : ParserSt :=
  popScopeFuel cond st.stack.length st

/-- One iteration of the `for` loop in `parse_nested_blocks`: reduce scope,
fold an equally-indented sibling, push the new line as an open block. -/
def parseStep (st : ParserSt) (i : RawBlock) : ParserSt :=
  let st1 := popScopeWhile (fun top => ! (List.isPrefixOf top.indent i.indent)) st
  let st2 := if i.indent = topIndent st1 then mergePrev st1 else st1
  ⟨st2.base, i :: st2.stack⟩

/-- `Parser::finish`: fold all remaining open blocks, then convert. -/
def parserFinish (st : ParserSt) : List Block :=
  finishList (popScopeWhile (fun _ => true) st).base

/-- The items fed to the parser loop: each non-blank line split into
indentation and content, as a fresh `RawBlock` with no children. -/
def lineItems (s : List Char) : List RawBlock :=
  (((rustLines s).map getIndent).filter (fun p => ! p.2.isEmpty)).map
    (fun p => RawBlock.mk p.1 p.2 [])

/-- `parse_nested_blocks` from `block.rs`. -/
def parseNestedBlocks (s : List Char) : List Block :=
  parserFinish ((lineItems s).foldl parseStep ⟨[], []⟩)

/-! ### Assertion-checked variant of the block parser

`parse_nested_blocks` contains two `assert!`s: after scope reduction the new
line's indentation must have the top-of-stack indentation as a prefix, and at
`finish` the stack must be empty.  The checked variant returns `none` exactly
when one of those assertions would fire. -/

def parseStepChecked (st : ParserSt) (i : RawBlock) : Option ParserSt :=
  let st1 := popScopeWhile (fun top => ! (List.isPrefixOf top.indent i.indent)) st
  if List.isPrefixOf (topIndent st1) i.indent then
    let st2 := if i.indent = topIndent st1 then mergePrev st1 else st1
    some ⟨st2.base, i :: st2.stack⟩
  else none

def parseNestedBlocksChecked (s : List Char) : Option (List Block) :=
  match (lineItems s).foldlM parseStepChecked ⟨[], []⟩ with
  | none => none
  | some st =>
    let st1 := popScopeWhile (fun _ => true) st
    if st1.stack.isEmpty then some (finishList st1.base) else none

/-! ### Head traversals -/

mutual

/-- In-order heads of a raw block: its own head, then its children's. -/
def rawHeads : RawBlock → List (List Char)
  | .mk _ h subs => h :: rawHeadsList subs

def rawHeadsList : List RawBlock → List (List Char)
  | [] => []
  | b :: bs => rawHeads b ++ rawHeadsList bs

end

mutual

def blockHeads : Block → List (List Char)
  | .mk h subs => h :: blockHeadsList subs

def blockHeadsList : List Block → List (List Char)
  | [] => []
  | b :: bs => blockHeads b ++ blockHeadsList bs

end

/-- In-order heads of the whole stack, bottom of the stack first (the order
in which the open blocks were begun). -/
def stackHeads : List RawBlock → List (List Char)
  | [] => []
  | top :: rest => stackHeads rest ++ rawHeads top

/-- In-order heads of a full parser state. -/
def stateHeads (st : ParserSt) : List (List Char) :=
  rawHeadsList st.base ++ stackHeads st.stack

/-- The dedented contents of the non-blank lines of the input, in order. -/
def nonBlankContents (s : List Char) : List (List Char) :=
  ((((rustLines s).map getIndent).filter (fun p => ! p.2.isEmpty)).map
    (fun p => p.2))

/-! ## Embedding of the topology parser (`parser/mod.rs`) -/

/-- Rust `u8::is_ascii_whitespace` set, used by `split_ascii_whitespace`. -/
def isAsciiWhitespace (c : Char) : Bool :=
  c = ' ' || c = '\t' || c = '\n' || c = '\x0C' || c = '\r'

/-- Worker for `splitAsciiWhitespace`; `cur` is the current word reversed. -/
def splitAWGo (cur : List Char) : List Char → List (List Char)
  | [] => if cur.isEmpty then [] else [cur.reverse]
  | c :: rest =>
    if isAsciiWhitespace c then
      (if cur.isEmpty then splitAWGo [] rest else cur.reverse :: splitAWGo [] rest)
    else splitAWGo (c :: cur) rest

/-- Rust `str::split_ascii_whitespace` (words, empties dropped). -/
def splitAsciiWhitespace (s : List Char) : List (List Char) :=
  splitAWGo [] s

/-- Digit fold for Rust's unsigned `FromStr`: all chars must be ASCII digits
and the string must be nonempty. -/
def digitsToNat (cs : List Char) : Option Nat :=
  if cs.isEmpty then none
  else
    cs.foldl (fun acc c =>
      match acc with
      | none => none
      | some a => if c.isDigit then some (a * 10 + (c.toNat - 48)) else none)
      (some 0)

/-- Rust `str::parse` for an unsigned integer type whose values are
`< bound`: an optional leading `'+'`, then one or more ASCII digits, and the
value must be in range. -/
def rustParseUInt (bound : Nat) (s : List Char) : Option Nat :=
  let s1 := match s with
    | '+' :: rest => rest
    | _ => s
  match digitsToNat s1 with
  | none => none
  | some v => if v < bound then some v else none

def rustParseU16 : List Char → Option Nat := rustParseUInt 65536

def rustParseU8 : List Char → Option Nat := rustParseUInt 256

/-- `EntryType` from `parser/mod.rs` (declaration order matters for `Ord`). -/
inductive EntryType : Type where
  | External
  | Router
  | StubNet
  | Network
  | XNetwork
  | XRouter
deriving DecidableEq, Repr

/-- `EntryType::from_str`. -/
def EntryType.fromStr (s : List Char) : Option EntryType :=
  if s = "external".toList then some .External
  else if s = "router".toList then some .Router
  else if s = "stubnet".toList then some .StubNet
  else if s = "network".toList then some .Network
  else if s = "xnetwork".toList then some .XNetwork
  else if s = "xrouter".toList then some .XRouter
  else none

/-- `Metric` from `parser/mod.rs`: internal or external OSPF metric. -/
inductive Metric : Type where
  | Internal (x : Nat)
  | External (x : Nat)
deriving DecidableEq, Repr

/-- `EntryParseError` from `parser/mod.rs`.  `InvalidMetric`'s
`std::num::ParseIntError` payload is standard-library data and is not
modelled. -/
inductive EntryParseError : Type where
  | InvalidEntryType
  | InvalidMetric
  | UnknownMetric
  | InvalidStructure (elements : Nat)
deriving DecidableEq, Repr

/-- `Metric::new`: the value is parsed first (so a non-numeric value reports
`InvalidMetric` even for an unknown metric kind), then the kind is matched. -/
def Metric.new (t v : List Char) : Except EntryParseError Metric :=
  match rustParseU16 v with
  | none => .error .InvalidMetric
  | some x =>
    if t = "metric".toList then .ok (.Internal x)
    else if t = "metric2".toList then .ok (.External x)
    else .error .UnknownMetric

/-- `Entry` from `parser/mod.rs`: one parsed adjacency line. -/
structure Entry : Type where
  typ : EntryType
  obj : List Char
  metric : Metric
deriving DecidableEq, Repr

/-- `Entry::from_str`: exactly four whitespace-separated tokens; the type is
parsed before the metric, matching the source's field evaluation order. -/
def Entry.fromStr (s : List Char) : Except EntryParseError Entry :=
  match splitAsciiWhitespace s with
  | [p0, p1, p2, p3] =>
    match EntryType.fromStr p0 with
    | none => .error .InvalidEntryType
    | some t =>
      match Metric.new p2 p3 with
      | .error e => .error e
      | .ok m => .ok ⟨t, p1, m⟩
  | other => .error (.InvalidStructure other.length)

/-- Discriminant index of an `EntryType`, realizing the derived Rust `Ord`
(declaration order). -/
def entryTypeIdx : EntryType → Nat
  | .External => 0
  | .Router => 1
  | .StubNet => 2
  | .Network => 3
  | .XNetwork => 4
  | .XRouter => 5

/-- Lexicographic comparison of strings by code point, which coincides with
Rust's byte-wise `str` ordering because UTF-8 preserves code-point order. -/
def listCharCmp : List Char → List Char → Ordering
  | [], [] => .eq
  | [], _ :: _ => .lt
  | _ :: _, [] => .gt
  | a :: xs, b :: ys =>
    if a.toNat < b.toNat then .lt
    else if b.toNat < a.toNat then .gt
    else listCharCmp xs ys

/-- Derived Rust `Ord` on `Metric`: variant order, then payload. -/
def metricCmp : Metric → Metric → Ordering
  | .Internal x, .Internal y => compare x y
  | .Internal _, .External _ => .lt
  | .External _, .Internal _ => .gt
  | .External x, .External y => compare x y

/-- Derived Rust `Ord` on `Entry`: lexicographic over (typ, obj, metric). -/
def entryCmp (a b : Entry) : Ordering :=
  match compare (entryTypeIdx a.typ) (entryTypeIdx b.typ) with
  | .eq =>
    match listCharCmp a.obj b.obj with
    | .eq => metricCmp a.metric b.metric
    | o => o
  | o => o

def EntryLe (a b : Entry) : Prop := entryCmp a b ≠ .gt

instance : DecidableRel EntryLe := fun a b =>
  inferInstanceAs (Decidable (entryCmp a b ≠ .gt))

/-- The weight a metric contributes to an edge (the `match` inside
`RouterData::neighbors`/`conns`): external metrics get 1000 added.  The
addition is on `u16`, which wraps modulo 2^16 in release builds. -/
def Metric.weight : Metric → Nat
  | .Internal x => x
  | .External x => (1000 + x) % 65536

/-- `RouterData` from `parser/mod.rs`. -/
structure RouterData : Type where
  distance : Nat
  entries : List Entry
deriving DecidableEq, Repr

/-- `RouterData::neighbors`: the `Router`-typed entries with their weights. -/
def RouterData.neighbors (rd : RouterData) : List (List Char × Nat) :=
  rd.entries.filterMap (fun i =>
    if i.typ = .Router then some (i.obj, i.metric.weight) else none)

/-- `RouterData::conns`: the non-`Router`-typed entries with their weights. -/
def RouterData.conns (rd : RouterData) : List (List Char × Nat) :=
  rd.entries.filterMap (fun i =>
    if i.typ ≠ .Router then some (i.obj, i.metric.weight) else none)

def RouterData.isUnreachable (rd : RouterData) : Bool := rd.distance == 255

/-- `NetworkData` from `parser/mod.rs`; the `BTreeSet` of member routers is
embedded as an ascending sorted duplicate-free list. -/
structure NetworkData : Type where
  distance : Nat
  dr : Nat
  routers : List Nat
deriving DecidableEq, Repr

def NetworkData.isUnreachable (nd : NetworkData) : Bool := nd.distance == 255

/-- `BTreeSet::insert` on an ascending sorted duplicate-free list. -/
def btreeSetInsert (v : Nat) : List Nat → List Nat
  | [] => [v]
  | x :: xs =>
    if v < x then v :: x :: xs
    else if v = x then x :: xs
    else x :: btreeSetInsert v xs

/-- `BTreeMap` embedded as an association list sorted ascending by key:
lookup. -/
def alistLookup {β : Type} (k : Nat) : List (Nat × β) → Option β
  | [] => none
  | (k', v) :: rest => if k = k' then some v else alistLookup k rest

/-- `BTreeMap` insert-or-replace, keeping keys sorted ascending. -/
def alistInsert {β : Type} (k : Nat) (v : β) : List (Nat × β) → List (Nat × β)
  | [] => [(k, v)]
  | (k', v') :: rest =>
    if k < k' then (k, v) :: (k', v') :: rest
    else if k = k' then (k, v) :: rest
    else (k', v') :: alistInsert k v rest

/-- `HashMap` keyed by strings, embedded as an association list (the source
only ever looks areas up by key; iteration order is never used): lookup. -/
def slistLookup {β : Type} (k : List Char) : List (List Char × β) → Option β
  | [] => none
  | (k', v) :: rest => if k = k' then some v else slistLookup k rest

def slistInsert {β : Type} (k : List Char) (v : β) :
    List (List Char × β) → List (List Char × β)
  | [] => [(k, v)]
  | (k', v') :: rest =>
    if k = k' then (k, v) :: rest else (k', v') :: slistInsert k v rest

/-- `AreaData` from `parser/mod.rs`. -/
structure AreaData : Type where
  routers : List (Nat × RouterData)
  networks : List (Nat × NetworkData)
deriving DecidableEq, Repr

/-- `Topology` from `parser/mod.rs`. -/
structure Topology : Type where
  interned : List (Nat × List Char)
  areas : List (List Char × AreaData)
deriving DecidableEq, Repr

/-- `Topology::new`. -/
def Topology.new : Topology := ⟨[], []⟩

/-- Modelled from the spec: `router2id` hashes the name with the standard
library's `DefaultHasher` (SipHash-1-3 with zero keys), which is external
library code, not part of this repository; the spec relies only on it being
a stable 64-bit hash of the name string ("Router/network identities are
64-bit values derived by a stable hash of their name string").  Embedded as
a stable FNV-style 64-bit fold over the code points. -/
def router2id (name : List Char) : Nat :=
  name.foldl (fun h c => (h * 1099511628211 + c.toNat) % 18446744073709551616)
    14695981039346656037

/-- `try_eat_pfx` from `parser/mod.rs`. -/
def tryEatPfx (s pfx : List Char) : Option (List Char) :=
  if List.isPrefixOf pfx s then some (s.drop pfx.length) else none

/-- `TopologyParseError` from `parser/mod.rs`.  `InvalidDistance`'s
`std::num::ParseIntError` payload is standard-library data and is not
modelled. -/
inductive TopologyParseError : Type where
  | InvalidEntry (ent : List Char) (err : EntryParseError)
  | InvalidDistance
  | UnknownStructure (level : Nat)
  | DistanceMismatch (a b : Nat)
deriving DecidableEq, Repr

/-- The name-interning closure from `parse_topology`: hash the name, record
the first-seen original string, return the id. -/
def internName (interned : List (Nat × List Char)) (name : List Char) :
    List (Nat × List Char) × Nat :=
  let h := router2id name
  (match alistLookup h interned with
   | some _ => interned
   | none => alistInsert h name interned, h)

/-- `dedup`-style removal of consecutive duplicates (Rust `Vec::dedup`). -/
def dedupConsec {α : Type} [DecidableEq α] : List α → List α
  | [] => []
  | [x] => [x]
  | x :: y :: rest =>
    if x = y then dedupConsec (y :: rest) else x :: dedupConsec (y :: rest)

/-- One iteration of the entry loop inside a `router` block: structural
check, `unreachable`, `distance <n>`, otherwise an adjacency entry. -/
def processRouterSub (rd : RouterData) (b : Block) :
    Except TopologyParseError RouterData :=
  if ! b.subs.isEmpty then .error (.UnknownStructure 3)
  else if b.head = "unreachable".toList then
    if rd.distance ≠ 255 ∧ rd.distance ≠ 255 then
      .error (.DistanceMismatch rd.distance 255)
    else .ok { rd with distance := 255 }
  else
    match tryEatPfx b.head ("distance ".toList) with
    | some ds =>
      match rustParseU8 ds with
      | none => .error .InvalidDistance
      | some d =>
        if rd.distance ≠ d ∧ rd.distance ≠ 255 then
          .error (.DistanceMismatch rd.distance d)
        else .ok { rd with distance := d }
    | none =>
      match Entry.fromStr b.head with
      | .error e => .error (.InvalidEntry b.head e)
      | .ok ent => .ok { rd with entries := rd.entries ++ [ent] }

/-- One iteration of the entry loop inside a `network` block: structural
check, `unreachable`, `distance <n>`, `dr <name>`, `router <name>`;
anything else is silently ignored. -/
def processNetworkSub (interned : List (Nat × List Char)) (nd : NetworkData)
    (b : Block) :
    Except TopologyParseError (List (Nat × List Char) × NetworkData) :=
  if ! b.subs.isEmpty then .error (.UnknownStructure 3)
  else if b.head = "unreachable".toList then
    if nd.distance ≠ 255 ∧ nd.distance ≠ 255 then
      .error (.DistanceMismatch nd.distance 255)
    else .ok (interned, { nd with distance := 255 })
  else
    match tryEatPfx b.head ("distance ".toList) with
    | some ds =>
      match rustParseU8 ds with
      | none => .error .InvalidDistance
      | some d =>
        if nd.distance ≠ d ∧ nd.distance ≠ 255 then
          .error (.DistanceMismatch nd.distance d)
        else .ok (interned, { nd with distance := d })
    | none =>
      match tryEatPfx b.head ("dr ".toList) with
      | some drName =>
        let p := internName interned drName
        .ok (p.1, { nd with dr := p.2 })
      | none =>
        match tryEatPfx b.head ("router ".toList) with
        | some rName =>
          let p := internName interned rName
          .ok (p.1, { nd with routers := btreeSetInsert p.2 nd.routers })
        | none => .ok (interned, nd)

/-- One child of an `area` block: a `router <name>` or `network <name>`
block (anything else is structural error level 2). -/
def processAreaElem (interned : List (Nat × List Char)) (ad : AreaData)
    (elem : Block) :
    Except TopologyParseError (List (Nat × List Char) × AreaData) :=
  match tryEatPfx elem.head ("router ".toList) with
  | some routerName =>
    let p := internName interned routerName
    let rd0 := (alistLookup p.2 ad.routers).getD ⟨255, []⟩
    match elem.subs.foldlM processRouterSub rd0 with
    | .error e => .error e
    | .ok rd =>
      let rd1 := { rd with entries := dedupConsec (List.insertionSort EntryLe rd.entries) }
      .ok (p.1, { ad with routers := alistInsert p.2 rd1 ad.routers })
  | none =>
    match tryEatPfx elem.head ("network ".toList) with
    | some networkName =>
      let p := internName interned networkName
      let nd0 := (alistLookup p.2 ad.networks).getD ⟨255, 0, []⟩
      match elem.subs.foldlM (fun acc b => processNetworkSub acc.1 acc.2 b)
          (p.1, nd0) with
      | .error e => .error e
      | .ok q =>
        .ok (q.1, { ad with networks := alistInsert p.2 q.2 ad.networks })
    | none => .error (.UnknownStructure 2)

/-- One root-level `area <name>` block. -/
def processArea (acc : List (Nat × List Char) × List (List Char × AreaData))
    (area : Block) :
    Except TopologyParseError
      (List (Nat × List Char) × List (List Char × AreaData)) :=
  match tryEatPfx area.head ("area ".toList) with
  | none => .error (.UnknownStructure 1)
  | some areaName =>
    let ad0 := (slistLookup areaName acc.2).getD ⟨[], []⟩
    match area.subs.foldlM (fun q elem => processAreaElem q.1 q.2 elem)
        (acc.1, ad0) with
    | .error e => .error e
    | .ok q => .ok (q.1, slistInsert areaName q.2 acc.2)

/-- `parse_topology` from `parser/mod.rs`: banner check, then the areas. -/
def parseTopology (base : Topology) (s : List Char) :
    Except TopologyParseError Topology :=
  match parseNestedBlocks s with
  | [] => .error (.UnknownStructure 0)
  | b0 :: rest =>
    if List.isPrefixOf ("BIRD v".toList) b0.head then
      match rest.foldlM processArea (base.interned, base.areas) with
      | .error e => .error e
      | .ok acc => .ok ⟨acc.1, acc.2⟩
    else .error (.UnknownStructure 0)

/-! ## Embedding of the graph projector's edge emission (`gather.rs`)

Only the edge computation is embedded; node construction (labels, groups,
details) shares no state with the edge list and none of the verified claims
about `gather` concern it beyond the ids the edges connect. -/

/-- `Edge` from `gather.rs`.  `from` and `to` are Lean keywords, so the
fields are called `fr` and `toN`. -/
structure Edge : Type where
  fr : Nat
  toN : Nat
  length : Nat
deriving DecidableEq, Repr

/-- The `insert_edge` closure from `gather`: canonicalize the endpoint order
and derive the length from the weight. -/
def mkEdge (id1 id2 w : Nat) : Edge :=
  ⟨min id1 id2, max id1 id2, min (w / 100 + 1) 1000⟩

/-- Edges contributed by one backbone router: `Router` entries first, then
the non-router connections (both also via `insert_edge`). -/
def routerEdges (rid : Nat) (rd : RouterData) : List Edge :=
  (rd.neighbors.map (fun p => mkEdge rid (router2id p.1) p.2)) ++
  (rd.conns.map (fun p => mkEdge rid (router2id p.1) p.2))

/-- Edges contributed by one backbone network: a weight-0 edge to every
member router and, chained last, to the designated router. -/
def networkEdges (nid : Nat) (nd : NetworkData) : List Edge :=
  (nd.routers ++ [nd.dr]).map (fun i => mkEdge nid i 0)

def backboneName : List Char := "0.0.0.0".toList

/-- The edge list accumulated by `gather` before sorting: empty unless the
backbone area exists, else routers' edges then networks' edges, following
the `BTreeMap` iteration order of the embedded sorted association lists. -/
def gatherEdgesRaw (topo : Topology) : List Edge :=
  match slistLookup backboneName topo.areas with
  | none => []
  | some bb =>
    (bb.routers.flatMap (fun p => routerEdges p.1 p.2)) ++
    (bb.networks.flatMap (fun p => networkEdges p.1 p.2))

/-- Derived Rust `Ord` on `Edge`: lexicographic over (from, to, length). -/
def EdgeLe (a b : Edge) : Prop :=
  a.fr < b.fr ∨ (a.fr = b.fr ∧ (a.toN < b.toN ∨ (a.toN = b.toN ∧ a.length ≤ b.length)))

instance : DecidableRel EdgeLe := fun a b => by
  unfold EdgeLe
  exact inferInstance

/-- `edges.sort(); edges.dedup();` from `gather`: sort by the derived order
(any correct sort agrees with the source's stable sort because the order is
total and antisymmetric), then drop consecutive duplicates. -/
def gatherEdges (topo : Topology) : List Edge :=
  dedupConsec (List.insertionSort EdgeLe (gatherEdgesRaw topo))

/-! ## Embedding of the token pool (`tokens.rs`)

The `BitSet` of free token values is embedded as an ascending sorted
duplicate-free list; `iter().next()` on the bitset returns the smallest
member, i.e. the head of the list.  The mutex and the notification channel
are concurrency primitives outside the pure state transition. -/

/-- The initial free set: `(0..(u16::MAX - 1))`, that is `0..65534`. -/
def tokensInit : List Nat := List.range 65534

/-- `Tokens::try_acquire`: remove and return the lowest free value, or give
the payload back when the pool is exhausted. -/
def tryAcquire {α : Type} (free : List Nat) (payload : α) :
    Except α (Nat × List Nat) :=
  match free with
  | [] => .error payload
  | v :: rest => .ok (v, rest)

/-- `TokenGuard::drop`: return the value to the free set (set-insert; a
value already present is logged and left alone). -/
def releaseTok (v : Nat) (free : List Nat) : List Nat := btreeSetInsert v free

/-- `n` successive acquisitions; `none` as soon as one is rejected, else the
acquired values in order together with the final free set. -/
def drainTokens : Nat → List Nat → Option (List Nat × List Nat)
  | 0, free => some ([], free)
  | n + 1, free =>
    match tryAcquire free () with
    | .error _ => none
    | .ok (v, rest) =>
      match drainTokens n rest with
      | none => none
      | some (vs, fin) => some (v :: vs, fin)

/-- `n` rounds of acquire-then-immediately-release; `none` as soon as an
acquisition is rejected, else the final free set. -/
def acqRelIter : Nat → List Nat → Option (List Nat)
  | 0, free => some free
  | n + 1, free =>
    match tryAcquire free () with
    | .error _ => none
    | .ok (v, rest) => acqRelIter n (releaseTok v rest)

/-! ## Embedding of the update loop's state logic (`main.rs`)

Only the pure state transitions of the worker loop are embedded: the hash
compare/advance/distribute decision of one cycle, and the handling of one
token event.  Timers, channels and the websocket transport are external. -/

/-- `TokenUpdate` from `tokens.rs` (the `ws::Sender` payload of `Acquire` is
transport data and not modelled). -/
inductive TokenUpdate : Type where
  | Acquire (t : Nat)
  | Release (t : Nat)
deriving DecidableEq, Repr

/-- The worker loop's mutable state: the last hash stored by
`mem::replace`, and the keys of the admitted senders map. -/
structure LoopState : Type where
  prevHash : Option Nat
  senders : List Nat
deriving DecidableEq, Repr

/-- The hash handling of one cycle that produced a payload with hash
`newHash` (from `main.rs`): `mem::replace` stores the new hash first, then
the old value is compared; on mismatch the payload is distributed only if at
least one sender is admitted.  Returns the new state and whether a
distribution happened. -/
def cycleHashStep (st : LoopState) (newHash : Nat) : LoopState × Bool :=
  let old := st.prevHash
  let st1 : LoopState := { st with prevHash := some newHash }
  if old ≠ some newHash then
    if st1.senders.isEmpty then (st1, false) else (st1, true)
  else (st1, false)

/-- Handling of one admission-channel event (from `main.rs`): an `Acquire`
resets the stored hash to `None` and registers the sender; a `Release`
unregisters it. -/
def tokenEventStep (st : LoopState) : TokenUpdate → LoopState
  | .Acquire t => { prevHash := none, senders := btreeSetInsert t st.senders }
  | .Release t => { st with senders := st.senders.filter (fun x => x ≠ t) }

/-! ## Concrete inputs used by the claim instances -/

def textC2a : List Char :=
  ("BIRD v2.0\narea 0.0.0.0\n\trouter r1\n\t\tdistance 5\n" ++
   "\trouter r1\n\t\tdistance 9").toList

def textC2b : List Char :=
  ("BIRD v2.0\narea 0.0.0.0\n\trouter r1\n\t\tunreachable\n" ++
   "\trouter r1\n\t\tdistance 5").toList

def textC2c : List Char :=
  ("BIRD v2.0\narea 0.0.0.0\n\trouter r1\n\t\tunreachable\n" ++
   "\trouter r1\n\t\tunreachable").toList

def textC8a : List Char :=
  "BIRD v2.0\narea 0.0.0.0\n\trouter r1\n\t\trouter a b".toList

def textC8b : List Char :=
  "BIRD v2.0\narea 0.0.0.0\n\trouter r1\n\t\tfoo bar metric 5".toList

def textC8c : List Char :=
  "BIRD v2.0\narea 0.0.0.0\n\trouter r1\n\t\trouter x metricx 5".toList

def textC8d : List Char :=
  "BIRD v2.0\narea 0.0.0.0\n\trouter r1\n\t\trouter x metric abc".toList

def textC8e : List Char :=
  "BIRD v2.0\narea 0.0.0.0\n\tnetwork n1\n\t\tgarbage junk".toList

def textC3 : List Char :=
  ("BIRD v2.0\narea 0.0.0.0\n\trouter r1\n\t\tdistance 1\n" ++
   "\t\trouter r2 metric 10\n\trouter r2\n\t\tdistance 1\n" ++
   "\t\trouter r1 metric 10").toList

def textC5 : List Char :=
  ("BIRD v2.0\narea 0.0.0.0\n\tnetwork 10.0.0.0/24\n\t\tdistance 10\n" ++
   "\t\trouter r1").toList

def textC10 : List Char :=
  "BIRD v2.0\narea 0.0.0.0\n\tnetwork n1\n\t\tdistance 4\n\t\trouter r1".toList

/-- The parsed topology of a parse result, defaulting to the empty one. -/
def getTopo (r : Except TopologyParseError Topology) : Topology :=
  match r with
  | .ok t => t
  | .error _ => Topology.new

def isOkB {ε α : Type} : Except ε α → Bool
  | .ok _ => true
  | .error _ => false

/-- Extract a `DistanceMismatch` error's two values, if that is the
result. -/
def isDistanceMismatch : Except TopologyParseError Topology → Option (Nat × Nat)
  | .error (.DistanceMismatch a b) => some (a, b)
  | _ => none

/-- Extract an `InvalidEntry` error's offending line and inner error, if
that is the result. -/
def isInvalidEntry :
    Except TopologyParseError Topology → Option (List Char × EntryParseError)
  | .error (.InvalidEntry ent err) => some (ent, err)
  | _ => none

/-- The distance recorded for a router, reached through a parse result. -/
def getRouterDistance (r : Except TopologyParseError Topology)
    (area rname : List Char) : Option Nat :=
  match r with
  | .error _ => none
  | .ok t =>
    match slistLookup area t.areas with
    | none => none
    | some ad => (alistLookup (router2id rname) ad.routers).map (fun rd => rd.distance)

/-- The `NetworkData` recorded for a network, reached through a parse
result. -/
def getNetworkData (r : Except TopologyParseError Topology)
    (area nname : List Char) : Option NetworkData :=
  match r with
  | .error _ => none
  | .ok t =>
    match slistLookup area t.areas with
    | none => none
    | some ad => alistLookup (router2id nname) ad.networks

def topoC3 : Topology := getTopo (parseTopology Topology.new textC3)

def topoC5 : Topology := getTopo (parseTopology Topology.new textC5)

def topoC10 : Topology := getTopo (parseTopology Topology.new textC10)

/-- The backbone area of `topoC3` (present, so `getD` is immaterial). -/
def bbC3 : AreaData := (slistLookup backboneName topoC3.areas).getD ⟨[], []⟩

def rdC3a : RouterData :=
  (alistLookup (router2id ("r1".toList)) bbC3.routers).getD ⟨255, []⟩

def rdC3b : RouterData :=
  (alistLookup (router2id ("r2".toList)) bbC3.routers).getD ⟨255, []⟩

def bbC5 : AreaData := (slistLookup backboneName topoC5.areas).getD ⟨[], []⟩

def ndC5 : NetworkData :=
  (alistLookup (router2id ("10.0.0.0/24".toList)) bbC5.networks).getD ⟨255, 0, []⟩

def bbC10 : AreaData := (slistLookup backboneName topoC10.areas).getD ⟨[], []⟩

def ndC10 : NetworkData :=
  (alistLookup (router2id ("n1".toList)) bbC10.networks).getD ⟨255, 0, []⟩

/-- The sub-blocks of the `network n1` block of `textC10` (no `dr` line). -/
def c10subs : List Block :=
  [Block.mk ("distance 4".toList) [], Block.mk ("router r1".toList) []]

/-- The result of folding `processNetworkSub` over `c10subs` from the
default `NetworkData`. -/
def c10res : (List (Nat × List Char)) × NetworkData :=
  match c10subs.foldlM (fun acc b => processNetworkSub acc.1 acc.2 b)
      ([], (⟨255, 0, []⟩ : NetworkData)) with
  | .ok r => r
  | .error _ => ([], ⟨255, 0, []⟩)

end Bird

namespace Bird

/-! ## Lemmas about the block parser -/

theorem rawHeadsList_append (a b : List RawBlock) :
    rawHeadsList (a ++ b) = rawHeadsList a ++ rawHeadsList b := by
  induction a with
  | nil => simp [rawHeadsList]
  | cons x xs ih => simp [rawHeadsList, ih]

theorem rawHeads_pushSub (b c : RawBlock) :
    rawHeads (b.pushSub c) = rawHeads b ++ rawHeads c := by
  cases b with
  | mk i h s =>
    simp [RawBlock.pushSub, rawHeads, rawHeadsList_append, rawHeadsList]

theorem stateHeads_mergePrev (st : ParserSt) :
    stateHeads (mergePrev st) = stateHeads st := by
  cases st with
  | mk base stack =>
    cases stack with
    | nil => rfl
    | cons top rest =>
      cases rest with
      | nil =>
        simp [mergePrev, stateHeads, stackHeads, rawHeadsList_append, rawHeadsList]
      | cons t2 r2 =>
        simp [mergePrev, stateHeads, stackHeads, rawHeads_pushSub]

theorem stateHeads_popScopeFuel (cond : RawBlock → Bool) (fuel : Nat)
    (st : ParserSt) :
    stateHeads (popScopeFuel cond fuel st) = stateHeads st := by
  induction fuel generalizing st with
  | zero => rfl
  | succ n ih =>
    cases st with
    | mk base stack =>
      cases stack with
      | nil => rfl
      | cons top rest =>
        simp only [popScopeFuel]
        split
        · rw [ih, stateHeads_mergePrev]
        · rfl

theorem mergePrev_stack_length (base : List RawBlock) (top : RawBlock)
    (rest : List RawBlock) :
    (mergePrev ⟨base, top :: rest⟩).stack.length = rest.length := by
  cases rest <;> simp [mergePrev]

theorem popScopeFuel_true_stack (fuel : Nat) (st : ParserSt)
    (h : st.stack.length ≤ fuel) :
    (popScopeFuel (fun _ => true) fuel st).stack = [] := by
  induction fuel generalizing st with
  | zero =>
    cases st with
    | mk base stack =>
      cases stack with
      | nil => rfl
      | cons top rest => simp at h
  | succ n ih =>
    cases st with
    | mk base stack =>
      cases stack with
      | nil => rfl
      | cons top rest =>
        simp only [popScopeFuel, if_pos]
        apply ih
        rw [mergePrev_stack_length]
        simp at h
        omega

theorem isPrefixOf_self (l : List Char) : List.isPrefixOf l l = true := by
  induction l with
  | nil => rfl
  | cons c cs ih => simp [List.isPrefixOf, ih]

theorem popScopeFuel_prefixCond (ind : List Char) (fuel : Nat) (st : ParserSt)
    (h : st.stack.length ≤ fuel) :
    List.isPrefixOf
      (topIndent (popScopeFuel
        (fun top => ! (List.isPrefixOf top.indent ind)) fuel st)) ind = true := by
  induction fuel generalizing st with
  | zero =>
    cases st with
    | mk base stack =>
      cases stack with
      | nil => simp [popScopeFuel, topIndent, List.isPrefixOf]
      | cons top rest => simp at h
  | succ n ih =>
    cases st with
    | mk base stack =>
      cases stack with
      | nil => simp [popScopeFuel, topIndent, List.isPrefixOf]
      | cons top rest =>
        simp only [popScopeFuel]
        by_cases hc : List.isPrefixOf top.indent ind = true
        · rw [if_neg (by simp [hc])]
          simpa [topIndent] using hc
        · rw [if_pos (by simp [hc])]
          apply ih
          rw [mergePrev_stack_length]
          simp at h
          omega

theorem parseStepChecked_eq (st : ParserSt) (i : RawBlock) :
    parseStepChecked st i = some (parseStep st i) := by
  simp only [parseStepChecked, parseStep, popScopeWhile]
  rw [if_pos (popScopeFuel_prefixCond i.indent st.stack.length st (le_refl _))]

theorem foldlM_parseStepChecked (items : List RawBlock) : ∀ st : ParserSt,
    items.foldlM parseStepChecked st = some (items.foldl parseStep st) := by
  induction items with
  | nil => intro st; rfl
  | cons b bs ih =>
    intro st
    rw [List.foldlM_cons, parseStepChecked_eq]
    simpa using ih (parseStep st b)

mutual

theorem blockHeads_finish : ∀ b : RawBlock, blockHeads b.finish = rawHeads b
  | .mk i h subs => by
    simp [RawBlock.finish, blockHeads, rawHeads, blockHeadsList_finishList subs]

theorem blockHeadsList_finishList : ∀ bs : List RawBlock,
    blockHeadsList (finishList bs) = rawHeadsList bs
  | [] => rfl
  | b :: bs => by
    simp [finishList, blockHeadsList, rawHeadsList, blockHeads_finish b,
      blockHeadsList_finishList bs]

end

theorem stateHeads_push (st : ParserSt) (i : RawBlock) :
    stateHeads ⟨st.base, i :: st.stack⟩ = stateHeads st ++ rawHeads i := by
  cases st
  simp [stateHeads, stackHeads, List.append_assoc]

theorem stateHeads_parseStep (st : ParserSt) (i : RawBlock) (h : i.subs = []) :
    stateHeads (parseStep st i) = stateHeads st ++ [i.head] := by
  have hi : rawHeads i = [i.head] := by
    cases i with
    | mk a b c =>
      simp [RawBlock.subs] at h
      subst h
      simp [rawHeads, rawHeadsList, RawBlock.head]
  simp only [parseStep, popScopeWhile]
  rw [stateHeads_push, hi]
  congr 1
  split
  · rw [stateHeads_mergePrev, stateHeads_popScopeFuel]
  · rw [stateHeads_popScopeFuel]

theorem stateHeads_foldl (items : List RawBlock) : ∀ st : ParserSt,
    (∀ b ∈ items, b.subs = []) →
    stateHeads (items.foldl parseStep st) =
      stateHeads st ++ items.map RawBlock.head := by
  induction items with
  | nil => intro st _; simp
  | cons b bs ih =>
    intro st hall
    simp only [List.foldl_cons, List.map_cons]
    rw [ih _ (fun x hx => hall x (List.mem_cons_of_mem _ hx)),
      stateHeads_parseStep st b (hall b (List.mem_cons_self _ _))]
    simp [List.append_assoc]

theorem lineItems_subs (s : List Char) : ∀ b ∈ lineItems s, b.subs = [] := by
  intro b hb
  unfold lineItems at hb
  rcases List.mem_map.mp hb with ⟨p, _, rfl⟩
  rfl

theorem lineItems_heads (s : List Char) :
    (lineItems s).map RawBlock.head = nonBlankContents s := by
  unfold lineItems nonBlankContents
  rw [List.map_map]
  rfl

theorem blockHeads_parseNestedBlocks (s : List Char) :
    blockHeadsList (parseNestedBlocks s) = nonBlankContents s := by
  unfold parseNestedBlocks parserFinish
  rw [blockHeadsList_finishList]
  have hstack :
      (popScopeWhile (fun _ => true)
        ((lineItems s).foldl parseStep ⟨[], []⟩)).stack = [] :=
    popScopeFuel_true_stack _ _ (le_refl _)
  have hsh :
      rawHeadsList (popScopeWhile (fun _ => true)
        ((lineItems s).foldl parseStep ⟨[], []⟩)).base =
      stateHeads (popScopeWhile (fun _ => true)
        ((lineItems s).foldl parseStep ⟨[], []⟩)) := by
    simp [stateHeads, hstack, stackHeads]
  rw [hsh]
  unfold popScopeWhile
  rw [stateHeads_popScopeFuel, stateHeads_foldl _ _ (lineItems_subs s),
    lineItems_heads]
  rfl

theorem parseStep_child (st : ParserSt) (i b : RawBlock) (rest : List RawBlock)
    (hst : st.stack = b :: rest)
    (hpre : List.isPrefixOf b.indent i.indent = true)
    (hne : b.indent ≠ i.indent) :
    parseStep st i = ⟨st.base, i :: b :: rest⟩ := by
  cases st with
  | mk base stack =>
    change stack = b :: rest at hst
    subst hst
    simp [parseStep, popScopeWhile, popScopeFuel, hpre, topIndent, Ne.symm hne]

theorem parseStep_sibling (st : ParserSt) (i b : RawBlock)
    (rest : List RawBlock) (hst : st.stack = b :: rest)
    (heq : b.indent = i.indent) :
    parseStep st i = ⟨(mergePrev st).base, i :: (mergePrev st).stack⟩ := by
  cases st with
  | mk base stack =>
    change stack = b :: rest at hst
    subst hst
    simp [parseStep, popScopeWhile, popScopeFuel, topIndent, heq,
      isPrefixOf_self]

theorem parseStep_close (st : ParserSt) (i b : RawBlock)
    (rest : List RawBlock) (hst : st.stack = b :: rest)
    (hpre : List.isPrefixOf b.indent i.indent = false) :
    parseStep st i = parseStep (mergePrev st) i := by
  cases st with
  | mk base stack =>
    change stack = b :: rest at hst
    subst hst
    have h1 : popScopeFuel (fun top => ! (List.isPrefixOf top.indent i.indent))
        ((b :: rest).length) ⟨base, b :: rest⟩ =
        popScopeFuel (fun top => ! (List.isPrefixOf top.indent i.indent))
          rest.length (mergePrev ⟨base, b :: rest⟩) := by
      simp [popScopeFuel, hpre]
    simp only [parseStep, popScopeWhile, h1, mergePrev_stack_length]

/-- C1: for every input text, the block parser's forest traversed in order
has heads equal to the dedented contents of exactly the non-blank input
lines in input order; a line whose indentation strictly extends the top open
block's indentation is pushed as a new child scope of that block, a line
with indentation equal to the top open block's folds that sibling into its
parent first, and a line whose indentation does not extend the top open
block's indentation first closes that deeper scope; and parsing
"a\n  b\n  c\nd" yields the forest [a [b, c], d]. -/
theorem claim_C1_blockParser :
    (∀ s : List Char,
      blockHeadsList (parseNestedBlocks s) = nonBlankContents s)
    ∧ (∀ (st : ParserSt) (i b : RawBlock) (rest : List RawBlock),
        st.stack = b :: rest → List.isPrefixOf b.indent i.indent = true →
        b.indent ≠ i.indent → parseStep st i = ⟨st.base, i :: b :: rest⟩)
    ∧ (∀ (st : ParserSt) (i b : RawBlock) (rest : List RawBlock),
        st.stack = b :: rest → b.indent = i.indent →
        parseStep st i = ⟨(mergePrev st).base, i :: (mergePrev st).stack⟩)
    ∧ (∀ (st : ParserSt) (i b : RawBlock) (rest : List RawBlock),
        st.stack = b :: rest → List.isPrefixOf b.indent i.indent = false →
        parseStep st i = parseStep (mergePrev st) i)
    ∧ parseNestedBlocks ("a\n  b\n  c\nd".toList) =
        [Block.mk ("a".toList)
          [Block.mk ("b".toList) [], Block.mk ("c".toList) []],
         Block.mk ("d".toList) []] :=
  ⟨blockHeads_parseNestedBlocks, parseStep_child, parseStep_sibling,
   parseStep_close, by rfl⟩

/-- Witness for C1: the nesting-rule components applied at concrete states
(a child pushed under "a", a sibling folded at equal indentation). -/
theorem claim_C1_blockParser_witness :
    parseStep ⟨[], [RawBlock.mk [] ("a".toList) []]⟩
        (RawBlock.mk ("  ".toList) ("b".toList) []) =
      ⟨[], [RawBlock.mk ("  ".toList) ("b".toList) [],
            RawBlock.mk [] ("a".toList) []]⟩
    ∧ parseStep ⟨[], [RawBlock.mk ("  ".toList) ("b".toList) [],
            RawBlock.mk [] ("a".toList) []]⟩
        (RawBlock.mk ("  ".toList) ("c".toList) []) =
      ⟨[], [RawBlock.mk ("  ".toList) ("c".toList) [],
            RawBlock.mk [] ("a".toList)
              [RawBlock.mk ("  ".toList) ("b".toList) []]]⟩ :=
  ⟨claim_C1_blockParser.2.1 ⟨[], [RawBlock.mk [] ("a".toList) []]⟩
      (RawBlock.mk ("  ".toList) ("b".toList) [])
      (RawBlock.mk [] ("a".toList) []) [] rfl (by decide) (by decide),
   claim_C1_blockParser.2.2.1
      ⟨[], [RawBlock.mk ("  ".toList) ("b".toList) [],
            RawBlock.mk [] ("a".toList) []]⟩
      (RawBlock.mk ("  ".toList) ("c".toList) [])
      (RawBlock.mk ("  ".toList) ("b".toList) [])
      [RawBlock.mk [] ("a".toList) []] rfl (by decide)⟩

/-- C7: the block parser is total: on every input (empty, blank lines,
arbitrarily mixed indentation) the assertion-checked parser returns `some`
of the parser's forest, so no input is rejected and neither internal
assertion (top-of-stack indentation prefix after scope reduction; empty
stack at finish) can fire. -/
theorem claim_C7_blockParser_never_fails : ∀ s : List Char,
    parseNestedBlocksChecked s = some (parseNestedBlocks s) := by
  intro s
  unfold parseNestedBlocksChecked parseNestedBlocks parserFinish
  rw [foldlM_parseStepChecked]
  have hstack : (popScopeWhile (fun _ => true)
      ((lineItems s).foldl parseStep ⟨[], []⟩)).stack = [] :=
    popScopeFuel_true_stack _ _ (le_refl _)
  simp [hstack]

/-! ## Lemmas about the edge order, sorting and deduplication -/

instance : IsTotal Edge EdgeLe :=
  ⟨fun a b => by unfold EdgeLe; omega⟩

instance : IsTrans Edge EdgeLe :=
  ⟨fun a b c hab hbc => by unfold EdgeLe at *; omega⟩

theorem edgeLe_antisymm {a b : Edge} (h1 : EdgeLe a b) (h2 : EdgeLe b a) :
    a = b := by
  cases a with
  | mk f1 t1 l1 =>
    cases b with
    | mk f2 t2 l2 =>
      simp only [EdgeLe] at h1 h2
      have : f1 = f2 ∧ t1 = t2 ∧ l1 = l2 := by omega
      rcases this with ⟨rfl, rfl, rfl⟩
      rfl

theorem mem_dedupConsec {α : Type} [DecidableEq α] (x : α) :
    ∀ l : List α, x ∈ dedupConsec l ↔ x ∈ l
  | [] => by simp [dedupConsec]
  | [y] => by simp [dedupConsec]
  | y :: z :: rest => by
    by_cases h : y = z
    · subst h
      rw [dedupConsec, if_pos rfl, mem_dedupConsec x (y :: rest)]
      simp [List.mem_cons]
    · rw [dedupConsec, if_neg h]
      simp [List.mem_cons, mem_dedupConsec x (z :: rest)]

theorem dedupConsec_nodup {α : Type} [DecidableEq α] (le : α → α → Prop)
    (hanti : ∀ a b, le a b → le b a → a = b) :
    ∀ l : List α, l.Pairwise le → (dedupConsec l).Nodup
  | [] => fun _ => by simp [dedupConsec]
  | [y] => fun _ => by simp [dedupConsec]
  | y :: z :: rest => fun hp => by
    rcases List.pairwise_cons.mp hp with ⟨hy, hp2⟩
    by_cases h : y = z
    · rw [dedupConsec, if_pos h]
      exact dedupConsec_nodup le hanti (z :: rest) hp2
    · rw [dedupConsec, if_neg h]
      rw [List.nodup_cons]
      refine ⟨fun hmem => ?_, dedupConsec_nodup le hanti (z :: rest) hp2⟩
      have hmem2 : y ∈ z :: rest := (mem_dedupConsec y (z :: rest)).mp hmem
      rcases List.mem_cons.mp hmem2 with rfl | hmem3
      · exact h rfl
      · have hzy : le z y := (List.pairwise_cons.mp hp2).1 y hmem3
        have hyz : le y z := hy z (List.mem_cons_self _ _)
        exact h (hanti _ _ hyz hzy)

theorem mem_gatherEdges {topo : Topology} {e : Edge} :
    e ∈ gatherEdges topo ↔ e ∈ gatherEdgesRaw topo := by
  unfold gatherEdges
  rw [mem_dedupConsec]
  exact (List.perm_insertionSort EdgeLe _).mem_iff

theorem nodup_gatherEdges (topo : Topology) : (gatherEdges topo).Nodup := by
  unfold gatherEdges
  exact dedupConsec_nodup EdgeLe (fun _ _ => edgeLe_antisymm) _
    (List.sorted_insertionSort EdgeLe _)

theorem alistLookup_mem {β : Type} {k : Nat} {v : β} :
    ∀ {l : List (Nat × β)}, alistLookup k l = some v → (k, v) ∈ l
  | [], h => by simp [alistLookup] at h
  | (k', v') :: rest, h => by
    rw [alistLookup] at h
    split at h
    · rename_i hk
      cases h
      subst hk
      exact List.mem_cons_self _ _
    · exact List.mem_cons_of_mem _ (alistLookup_mem h)

theorem mem_routerEdges_neighbors {rid : Nat} {rd : RouterData}
    {bname : List Char} {m : Nat} (h : (bname, m) ∈ rd.neighbors) :
    mkEdge rid (router2id bname) m ∈ routerEdges rid rd := by
  unfold routerEdges
  exact List.mem_append_left _
    (List.mem_map_of_mem (fun p => mkEdge rid (router2id p.1) p.2) h)

theorem mem_networkEdges {nid : Nat} {nd : NetworkData} {r : Nat}
    (h : r ∈ nd.routers ∨ r = nd.dr) :
    mkEdge nid r 0 ∈ networkEdges nid nd := by
  unfold networkEdges
  apply List.mem_map_of_mem (fun i => mkEdge nid i 0)
  rcases h with h | rfl
  · exact List.mem_append_left _ h
  · exact List.mem_append_right _ (List.mem_singleton_self _)

theorem mem_gatherEdgesRaw_router {topo : Topology} {bb : AreaData}
    {rid : Nat} {rd : RouterData} {e : Edge}
    (hbb : slistLookup backboneName topo.areas = some bb)
    (hr : (rid, rd) ∈ bb.routers) (he : e ∈ routerEdges rid rd) :
    e ∈ gatherEdgesRaw topo := by
  unfold gatherEdgesRaw
  rw [hbb]
  exact List.mem_append_left _ (List.mem_flatMap.mpr ⟨(rid, rd), hr, he⟩)

theorem mem_gatherEdgesRaw_network {topo : Topology} {bb : AreaData}
    {nid : Nat} {nd : NetworkData} {e : Edge}
    (hbb : slistLookup backboneName topo.areas = some bb)
    (hn : (nid, nd) ∈ bb.networks) (he : e ∈ networkEdges nid nd) :
    e ∈ gatherEdgesRaw topo := by
  unfold gatherEdgesRaw
  rw [hbb]
  exact List.mem_append_right _ (List.mem_flatMap.mpr ⟨(nid, nd), hn, he⟩)

/-- C3: every parsed router-to-router adjacency between routers A and B with
normalized metric m yields the canonical edge with `from = min(id A, id B)`,
`to = max(id A, id B)` and `length = min(m/100+1, 1000)`; reporting the same
adjacency from both directions produces the same canonical edge, and the
final sorted-and-deduplicated edge list contains it exactly once. -/
theorem claim_C3_edge_canonicalization
    (topo : Topology) (bb : AreaData) (aname bname : List Char)
    (rd rd2 : RouterData) (m : Nat)
    (hbb : slistLookup backboneName topo.areas = some bb)
    (hra : alistLookup (router2id aname) bb.routers = some rd)
    (hma : (bname, m) ∈ rd.neighbors)
    (hrb : alistLookup (router2id bname) bb.routers = some rd2)
    (hmb : (aname, m) ∈ rd2.neighbors) :
    mkEdge (router2id aname) (router2id bname) m =
      ⟨min (router2id aname) (router2id bname),
       max (router2id aname) (router2id bname), min (m / 100 + 1) 1000⟩
    ∧ mkEdge (router2id bname) (router2id aname) m =
        mkEdge (router2id aname) (router2id bname) m
    ∧ mkEdge (router2id aname) (router2id bname) m ∈ gatherEdges topo
    ∧ (gatherEdges topo).count (mkEdge (router2id aname) (router2id bname) m)
        = 1 := by
  have hmem : mkEdge (router2id aname) (router2id bname) m ∈ gatherEdges topo :=
    mem_gatherEdges.mpr (mem_gatherEdgesRaw_router hbb (alistLookup_mem hra)
      (mem_routerEdges_neighbors hma))
  refine ⟨rfl, ?_, hmem, ?_⟩
  · simp [mkEdge, Nat.min_comm, Nat.max_comm]
  · exact List.count_eq_one_of_mem (nodup_gatherEdges topo) hmem

/-- Witness for C3: in the parsed two-router topology `topoC3`, where r1 and
r2 each report the other with metric 10, the canonical edge is present
exactly once. -/
theorem claim_C3_witness :
    mkEdge (router2id ("r1".toList)) (router2id ("r2".toList)) 10 ∈
      gatherEdges topoC3
    ∧ (gatherEdges topoC3).count
        (mkEdge (router2id ("r1".toList)) (router2id ("r2".toList)) 10) = 1 := by
  have h := claim_C3_edge_canonicalization topoC3 bbC3 ("r1".toList)
    ("r2".toList) rdC3a rdC3b 10 rfl rfl (by decide) rfl (by decide)
  exact ⟨h.2.2.1, h.2.2.2⟩

/-- Counterexample for C5: in the parsed topology `topoC5` the backbone
contains network 10.0.0.0/24 with member router r1, yet the projected edge
list contains no edge of length 0 at all — in particular not the claimed
zero-length network↔member edge.  (`insert_edge` is called with weight 0,
and `min (0/100+1) 1000 = 1`.) -/
theorem claim_C5_counterexample :
    alistLookup (router2id ("10.0.0.0/24".toList)) bbC5.networks = some ndC5
    ∧ router2id ("r1".toList) ∈ ndC5.routers
    ∧ (∀ e ∈ gatherEdges topoC5, e.length ≠ 0) := by
  refine ⟨rfl, by decide, by decide⟩

/-- C5 (amended): for every network in the backbone area, the projected
graph contains an edge of length 1 from the network node to every member
router and to its designated router: the weight passed for network↔member
edges is 0, but `insert_edge` still derives the length by the
`min(w/100+1, 1000)` formula, which maps weight 0 to length 1 (not 0). -/
theorem claim_C5_network_edges
    (topo : Topology) (bb : AreaData) (nid : Nat) (nd : NetworkData) (r : Nat)
    (hbb : slistLookup backboneName topo.areas = some bb)
    (hn : alistLookup nid bb.networks = some nd)
    (hr : r ∈ nd.routers ∨ r = nd.dr) :
    mkEdge nid r 0 ∈ gatherEdges topo ∧ (mkEdge nid r 0).length = 1 := by
  refine ⟨?_, rfl⟩
  exact mem_gatherEdges.mpr (mem_gatherEdgesRaw_network hbb
    (alistLookup_mem hn) (mem_networkEdges hr))

/-- Witness for C5 (amended): the member edge of network 10.0.0.0/24 in
`topoC5` is present with length 1. -/
theorem claim_C5_witness :
    mkEdge (router2id ("10.0.0.0/24".toList)) (router2id ("r1".toList)) 0 ∈
      gatherEdges topoC5
    ∧ (mkEdge (router2id ("10.0.0.0/24".toList)) (router2id ("r1".toList))
        0).length = 1 :=
  claim_C5_network_edges topoC5 bbC5 (router2id ("10.0.0.0/24".toList)) ndC5
    (router2id ("r1".toList)) rfl rfl (Or.inl (by decide))

/-- `processNetworkSub` never changes the designated-router field on a line
that is not a `dr ` line. -/
theorem processNetworkSub_dr {interned : List (Nat × List Char)}
    {nd : NetworkData} {b : Block}
    (hdr : tryEatPfx b.head ("dr ".toList) = none) :
    ∀ r, processNetworkSub interned nd b = .ok r → r.2.dr = nd.dr := by
  intro r h
  simp only [processNetworkSub, hdr] at h
  split at h
  · cases h
  · split at h
    · split at h
      · cases h
      · cases h
        rfl
    · split at h
      · split at h
        · cases h
        · split at h
          · cases h
          · cases h
            rfl
      · split at h
        · cases h
          rfl
        · cases h
          rfl

/-- Folding router-block or ignored lines over a network block never sets
the designated router. -/
theorem networkFold_dr :
    ∀ (bs : List Block) (interned : List (Nat × List Char))
      (nd : NetworkData)
      (res : (List (Nat × List Char)) × NetworkData),
      nd.dr = 0 →
      (∀ b ∈ bs, tryEatPfx b.head ("dr ".toList) = none) →
      bs.foldlM (fun acc b => processNetworkSub acc.1 acc.2 b)
        (interned, nd) = .ok res →
      res.2.dr = 0 := by
  intro bs
  induction bs with
  | nil =>
    intro interned nd res h0 _ hfold
    cases hfold
    exact h0
  | cons b rest ih =>
    intro interned nd res h0 hall hfold
    rw [List.foldlM_cons] at hfold
    rcases hstep : processNetworkSub interned nd b with e | q
    · rw [hstep] at hfold
      cases hfold
    · rw [hstep] at hfold
      have hq : q.2.dr = 0 := by
        rw [processNetworkSub_dr (hall b (List.mem_cons_self _ _)) q hstep]
        exact h0
      exact ih q.1 q.2 res hq
        (fun x hx => hall x (List.mem_cons_of_mem _ hx)) hfold

/-- C10: a `network <name>` block parsed without any `dr <name>` line keeps
the default designated-router id 0, and graph projection then emits the
canonicalized edge between the network's id and id 0, which is
`{from := 0, to := nid, length := 1}` by the weight-0 formula. -/
theorem claim_C10_default_dr :
    (∀ (bs : List Block) (interned : List (Nat × List Char))
       (nd : NetworkData)
       (res : (List (Nat × List Char)) × NetworkData),
       nd.dr = 0 →
       (∀ b ∈ bs, tryEatPfx b.head ("dr ".toList) = none) →
       bs.foldlM (fun acc b => processNetworkSub acc.1 acc.2 b)
         (interned, nd) = .ok res →
       res.2.dr = 0)
    ∧ (∀ (topo : Topology) (bb : AreaData) (nid : Nat) (nd : NetworkData),
       slistLookup backboneName topo.areas = some bb →
       alistLookup nid bb.networks = some nd → nd.dr = 0 →
       mkEdge nid 0 0 ∈ gatherEdges topo ∧ mkEdge nid 0 0 = ⟨0, nid, 1⟩) := by
  refine ⟨networkFold_dr, ?_⟩
  intro topo bb nid nd hbb hn hdr
  constructor
  · exact mem_gatherEdges.mpr (mem_gatherEdgesRaw_network hbb
      (alistLookup_mem hn) (mem_networkEdges (Or.inr hdr.symm)))
  · simp [mkEdge]

/-- Witness for C10: the `network n1` block of `textC10` has no `dr` line,
the fold leaves `dr = 0`, the parsed topology emits the edge `⟨0, id(n1), 1⟩`,
and id 0 is not an interned name. -/
theorem claim_C10_witness :
    c10res.2.dr = 0
    ∧ (mkEdge (router2id ("n1".toList)) 0 0 ∈ gatherEdges topoC10
        ∧ mkEdge (router2id ("n1".toList)) 0 0 = ⟨0, router2id ("n1".toList), 1⟩)
    ∧ alistLookup 0 topoC10.interned = none :=
  ⟨claim_C10_default_dr.1 c10subs [] ⟨255, 0, []⟩ c10res rfl (by decide) rfl,
   claim_C10_default_dr.2 topoC10 bbC10 (router2id ("n1".toList)) ndC10
     rfl rfl (by decide),
   rfl⟩

/-- Counterexample for C2: merging `unreachable` and then `distance 5` for
the same router does not fail — 255 as the previously stored value never
conflicts (it is also the default), so the parse succeeds and the distance
becomes 5, contrary to the claimed 255-vs-5 conflict. -/
theorem claim_C2_counterexample :
    isOkB (parseTopology Topology.new textC2b) = true
    ∧ getRouterDistance (parseTopology Topology.new textC2b) backboneName
        ("r1".toList) = some 5 :=
  ⟨rfl, rfl⟩

/-- C2 (amended): two blocks for the same router carrying `distance 5` and
`distance 9` (neither 255) fail with the distance-conflict error carrying
both values 5 and 9; merging `unreachable` then `distance 5` for the same
router does not fail (255 stored never conflicts; the distance becomes 5);
merging `unreachable` followed by another `unreachable` does not fail. -/
theorem claim_C2_distance_conflicts :
    isDistanceMismatch (parseTopology Topology.new textC2a) = some (5, 9)
    ∧ isOkB (parseTopology Topology.new textC2b) = true
    ∧ getRouterDistance (parseTopology Topology.new textC2b) backboneName
        ("r1".toList) = some 5
    ∧ isOkB (parseTopology Topology.new textC2c) = true :=
  ⟨rfl, rfl, rfl, rfl⟩

/-- Counterexample for C8: a malformed line ("garbage junk", two tokens,
which `Entry::from_str` would reject) inside a `network` block does not make
the merge fail — the network entry loop has no adjacency fallback and
silently ignores unrecognized lines. -/
theorem claim_C8_counterexample :
    Entry.fromStr ("garbage junk".toList) = .error (.InvalidStructure 2)
    ∧ isOkB (parseTopology Topology.new textC8e) = true :=
  ⟨rfl, rfl⟩

/-- C8 (amended): inside a `router` block, every line that is not
`unreachable` and not `distance `-prefixed is parsed as a 4-token adjacency,
and each malformed adjacency line fails the merge with a distinct parse
error carrying the offending line text (wrong token count, unknown entry
type, unknown metric kind, non-numeric metric); lines inside a `network`
block that match none of its recognized attributes are silently ignored. -/
theorem claim_C8_entry_errors :
    (∀ (rd : RouterData) (h : List Char) (e : EntryParseError),
       h ≠ "unreachable".toList →
       tryEatPfx h ("distance ".toList) = none →
       Entry.fromStr h = .error e →
       processRouterSub rd (Block.mk h []) = .error (.InvalidEntry h e))
    ∧ isInvalidEntry (parseTopology Topology.new textC8a) =
        some ("router a b".toList, .InvalidStructure 3)
    ∧ isInvalidEntry (parseTopology Topology.new textC8b) =
        some ("foo bar metric 5".toList, .InvalidEntryType)
    ∧ isInvalidEntry (parseTopology Topology.new textC8c) =
        some ("router x metricx 5".toList, .UnknownMetric)
    ∧ isInvalidEntry (parseTopology Topology.new textC8d) =
        some ("router x metric abc".toList, .InvalidMetric)
    ∧ isOkB (parseTopology Topology.new textC8e) = true := by
  refine ⟨?_, rfl, rfl, rfl, rfl, rfl⟩
  intro rd h e h1 h2 h3
  simp at h1 h2
  simp [processRouterSub, Block.head, Block.subs, h1, h2, h3]

/-- Witness for C8: the general router-entry rule applied to the malformed
two-token line "xx yy". -/
theorem claim_C8_witness :
    processRouterSub ⟨255, []⟩ (Block.mk ("xx yy".toList) []) =
      .error (.InvalidEntry ("xx yy".toList) (.InvalidStructure 2)) :=
  claim_C8_entry_errors.1 ⟨255, []⟩ ("xx yy".toList) (.InvalidStructure 2)
    (by decide) (by rfl) (by rfl)

/-- Counterexample for C6: the raw weight computed for an external metric is
not strictly larger than every internal weight with y ≤ 1000: at x = 0 the
weights tie (1000 vs 1000), and at x = 65000 the u16 addition `1000 + x`
wraps to 464 < 1000. -/
theorem claim_C6_counterexample :
    ¬ (Metric.weight (.External 0) > Metric.weight (.Internal 1000))
    ∧ ¬ (Metric.weight (.External 65000) > Metric.weight (.Internal 1000)) := by
  decide

/-- C6 (amended): for every External(x) with x ≤ 64535 (no u16 overflow in
`1000 + x`) and every Internal(y) with y ≤ 1000, the raw edge weight of the
external metric is at least the internal one, and strictly larger whenever
x > 0; the strict claim fails at x = 0, y = 1000 (equal weights) and for
overflowing x. -/
theorem claim_C6_external_weights (x y : Nat) (hx : x ≤ 64535)
    (hy : y ≤ 1000) :
    Metric.weight (.External x) ≥ Metric.weight (.Internal y)
    ∧ (0 < x → Metric.weight (.External x) > Metric.weight (.Internal y)) := by
  have hmod : (1000 + x) % 65536 = 1000 + x := Nat.mod_eq_of_lt (by omega)
  simp only [Metric.weight, hmod]
  omega

/-- Witness for C6 (amended) at x = 5, y = 1000. -/
theorem claim_C6_witness :
    Metric.weight (.External 5) ≥ Metric.weight (.Internal 1000)
    ∧ (0 < 5 → Metric.weight (.External 5) > Metric.weight (.Internal 1000)) :=
  claim_C6_external_weights 5 1000 (by decide) (by decide)

/-! ## Lemmas about the token pool -/

theorem drainTokens_range (n : Nat) :
    ∀ a, drainTokens n (List.range' a n) = some (List.range' a n, []) := by
  induction n with
  | zero => intro a; rfl
  | succ n ih =>
    intro a
    rw [List.range'_succ]
    simp only [drainTokens, tryAcquire, ih (a + 1)]

theorem btreeSetInsert_lt_head (v : Nat) (l : List Nat)
    (h : ∀ w ∈ l, v < w) : btreeSetInsert v l = v :: l := by
  cases l with
  | nil => rfl
  | cons w ws => simp [btreeSetInsert, h w (List.mem_cons_self _ _)]

theorem acqRelIter_id : ∀ (n : Nat) (free : List Nat),
    free.Pairwise (· < ·) → free ≠ [] → acqRelIter n free = some free := by
  intro n
  induction n with
  | zero => intro free _ _; rfl
  | succ n ih =>
    intro free hpw hne
    cases free with
    | nil => exact absurd rfl hne
    | cons v rest =>
      simp only [acqRelIter, tryAcquire, releaseTok]
      rw [btreeSetInsert_lt_head v rest (List.pairwise_cons.mp hpw).1]
      exact ih _ hpw hne

/-- C4: the token pool has capacity 65534: from the full free set, 65534
successive acquisitions all succeed (returning 0, 1, ..., 65533, i.e. always
the lowest free value) and leave the pool empty, so the 65535th acquisition
is rejected with the payload returned; on any duplicate-free ascending free
set an acquisition returns the lowest free value and releasing it restores
the set, so acquiring and immediately releasing any number of times from the
full pool never exhausts it. -/
theorem claim_C4_token_pool :
    drainTokens 65534 tokensInit = some (tokensInit, [])
    ∧ (∀ p : Nat, tryAcquire ([] : List Nat) p = .error p)
    ∧ (∀ (free : List Nat) (p : Nat) (v : Nat) (rest : List Nat),
        free.Pairwise (· < ·) →
        tryAcquire free p = .ok (v, rest) →
        (∀ w ∈ free, v ≤ w) ∧ free = v :: rest ∧ releaseTok v rest = free)
    ∧ (∀ n : Nat, acqRelIter n tokensInit = some tokensInit) := by
  refine ⟨?_, fun p => rfl, ?_, ?_⟩
  · rw [tokensInit, List.range_eq_range']
    exact drainTokens_range 65534 0
  · intro free p v rest hpw hacq
    cases free with
    | nil => cases hacq
    | cons v0 rest0 =>
      cases hacq
      refine ⟨?_, rfl, ?_⟩
      · intro w hw
        rcases List.mem_cons.mp hw with rfl | hw2
        · exact Nat.le_refl _
        · exact Nat.le_of_lt ((List.pairwise_cons.mp hpw).1 w hw2)
      · exact btreeSetInsert_lt_head v rest (List.pairwise_cons.mp hpw).1
  · intro n
    apply acqRelIter_id n tokensInit
    · rw [tokensInit]
      exact List.pairwise_lt_range 65534
    · intro hnil
      rw [tokensInit, List.range_eq_nil] at hnil
      exact absurd hnil (by decide)

/-- Witness for C4: the lowest-value/release behavior on the concrete free
set [3, 7]. -/
theorem claim_C4_witness :
    tryAcquire [3, 7] 42 = .ok (3, [7])
    ∧ (∀ w ∈ [3, 7], 3 ≤ w)
    ∧ releaseTok 3 [7] = [3, 7] :=
  ⟨rfl,
   (claim_C4_token_pool.2.2.1 [3, 7] 42 3 [7] (by decide) rfl).1,
   (claim_C4_token_pool.2.2.1 [3, 7] 42 3 [7] (by decide) rfl).2.2⟩

/-- Counterexample for C9: a cycle with a changed hash and no admitted
viewer does advance the stored hash — `mem::replace` stores the new hash
unconditionally before the senders check, so from state (some 0, no
senders) and new hash 1 the stored hash becomes `some 1`, not `some 0`;
no distribution happens. -/
theorem claim_C9_counterexample :
    (cycleHashStep ⟨some 0, []⟩ 1).1.prevHash = some 1
    ∧ (cycleHashStep ⟨some 0, []⟩ 1).1.prevHash ≠ some 0
    ∧ (cycleHashStep ⟨some 0, []⟩ 1).2 = false := by
  decide

/-- C9 (amended): with no admitted viewer, a cycle stores the new hash
unconditionally (so the stored hash does advance, contrary to the claim)
and distributes nothing; the snapshot is nevertheless not swallowed because
a viewer admission resets the stored hash to `none`, which forces the first
cycle after the first viewer joins to treat the data as changed and
distribute, even when its hash equals the stored one. -/
theorem claim_C9_hash_reset :
    (∀ (h : Option Nat) (newHash : Nat),
       (cycleHashStep ⟨h, []⟩ newHash).1.prevHash = some newHash
       ∧ (cycleHashStep ⟨h, []⟩ newHash).2 = false)
    ∧ (∀ (st : LoopState) (t : Nat),
       (tokenEventStep st (.Acquire t)).prevHash = none)
    ∧ (∀ (newHash t : Nat),
       (cycleHashStep (tokenEventStep ⟨some newHash, []⟩ (.Acquire t))
          newHash).2 = true) := by
  refine ⟨?_, fun st t => rfl, ?_⟩
  · intro h newHash
    by_cases hh : h = some newHash <;>
      simp [cycleHashStep, hh]
  · intro newHash t
    simp [cycleHashStep, tokenEventStep, btreeSetInsert]

end Bird
